import Mathlib

/-!
Shallow embedding of the Go package `cancel` (file `cancel.go`).

The package defines one type, `Signal`, holding a lazily allocated
channel `done : chan struct{}` and two `sync.Once` guards (`make` for the
lazy allocation, `close` for the one-shot close), plus the operations
`New`, `Done`, `Cancel`, `init`, `Timeout`, `Deadline`, `Propagate` and
the free function `Promote`.

Modelling decisions:
* A Go channel of kind `chan struct{}` used purely as a broadcast
  notifier is a pair of its heap identity (`id : Nat`, the allocation
  order) and a `closed` flag.  Receiving on it succeeds without blocking
  exactly when it is closed.
* Each `sync.Once` is its `fired` bit; `Once.Do(f)` runs `f` exactly
  when the bit is unset and then sets it.  `sync.Once` serialises the
  bodies, so a concurrent history is an interleaving of the atomic
  operation bodies; we model histories as lists of operations applied
  to explicit state.
* `close(ch)` panics in Go when `ch` is `nil` or already closed, so the
  operations that close return `Option` (`none` = panic; for goroutine
  steps `none` also covers "case not enabled").
* Channel allocations and closes are recorded in an event trace, so
  "the broadcast executes exactly once" is a statement about traces.
* Durations and instants (`time.Duration`, `time.Time`) are `Int`
  (nanosecond counts); `time.Until(t) = t.Sub(time.Now())`.
* Real-time waiting is not modelled; for `time.After(d)` we record at
  which elapsed times its channel has delivered, and the goroutines
  spawned by `Timeout`, `Propagate` and `Promote` appear as explicitly
  scheduled steps of small labelled transition systems.
-/

set_option autoImplicit false

namespace Cancel

/-- A Go `chan struct{}` used as a broadcast notifier: its heap identity
(allocation id) and whether it has been closed.  A receive succeeds
immediately iff `closed`. -/
structure Chan where
  id : Nat
  closed : Bool
deriving DecidableEq

/-- Runtime events at the channel boundary: allocation (`make(chan struct{})`)
and `close`. -/
inductive Event where
  | mkChan (id : Nat)
  | closeChan (id : Nat)
deriving DecidableEq

/-- The fields of Go `cancel.Signal`: the lazily allocated `done` channel
(`none` = Go `nil`), and the fired bits of the two `sync.Once` guards
`make` and `close`. -/
structure Signal where
  done : Option Chan
  make : Bool
  close : Bool
deriving DecidableEq

/-- The Go zero value `Signal{}`: nil channel, neither `sync.Once` fired. -/
def zeroSignal : Signal := { done := none, make := false, close := false }

/-- Go `func (sig *Signal) init()`: `sig.make.Do(func() { sig.done = make(chan struct{}) })`.
`fresh` is the id the runtime would give a newly allocated channel.
Returns the updated signal and the emitted events. -/
def Signal.init (sig : Signal) (fresh : Nat) : Signal × List Event :=
  if sig.make then (sig, [])
  else ({ sig with make := true, done := some { id := fresh, closed := false } },
        [Event.mkChan fresh])

/-- Go `func New() *Signal`: allocates `&Signal{}` and calls `sig.init()`. -/
def New (fresh : Nat) : Signal × List Event :=
  zeroSignal.init fresh

/-- Go `func (sig *Signal) Done() <-chan struct{}`: calls `sig.init()` and
returns the field `sig.done`.  The third component is the returned channel
value (`none` would be a nil channel). -/
def Signal.Done (sig : Signal) (fresh : Nat) : Signal × List Event × Option Chan :=
  let (s, ev) := sig.init fresh
  (s, ev, s.done)

/-- Go `close(ch)` on an `Option Chan`: panics (`none`) on a nil channel or
on a channel that is already closed. -/
def goClose (c : Option Chan) : Option Chan :=
  match c with
  | none => none
  | some ch => if ch.closed then none else some { ch with closed := true }

/-- Go `func (sig *Signal) Cancel()`: calls `sig.init()`, then
`sig.close.Do(func() { close(sig.done) })`.  Result `none` means the body
would panic (never the case for states reachable through the API). -/
def Signal.Cancel (sig : Signal) (fresh : Nat) : Option (Signal × List Event) :=
  let (s, ev) := sig.init fresh
  if s.close then some (s, ev)
  else
    match goClose s.done with
    | none => none
    | some ch => some ({ s with close := true, done := some ch },
                       ev ++ [Event.closeChan ch.id])

/-- The observable termination state of a signal: its `done` channel exists
and is closed, which is exactly what a receive on `Done()` reports. -/
def Signal.terminated (sig : Signal) : Bool :=
  match sig.done with
  | some c => c.closed
  | none => false

/-- Well-formedness of a `Signal` state, as maintained by the API: the
channel exists iff the `make` guard fired, and it is closed iff the
`close` guard fired. -/
def Signal.WF (sig : Signal) : Bool :=
  match sig.done with
  | none => !sig.make && !sig.close
  | some c => sig.make && (c.closed == sig.close)

/-- Number of `closeChan` events in a trace (times the broadcast executed). -/
def countClose (tr : List Event) : Nat :=
  tr.countP fun e => match e with
    | Event.closeChan _ => true
    | _ => false

/-- Whether an event is a channel allocation. -/
def isMk : Event → Bool
  | Event.mkChan _ => true
  | Event.closeChan _ => false

/-- The allocation events of a trace, in order. -/
def mkEvents (tr : List Event) : List Event := tr.filter isMk

/-- Number of `mkChan` events in a trace (times a channel was allocated). -/
def countMk (tr : List Event) : Nat := (mkEvents tr).length

/-- Iterated `Cancel`: `n` successive calls (a concurrent history of `n`
`Cancel` calls is an interleaving of their `sync.Once`-serialised bodies,
hence equal to some serial order, and all serial orders coincide).
Accumulates the trace; `none` if any call panics. -/
def cancels : Nat → Signal → Nat → Option (Signal × List Event)
  | 0, sig, _ => some (sig, [])
  | n + 1, sig, fresh =>
    match sig.Cancel fresh with
    | none => none
    | some (s, ev) =>
      match cancels n s fresh with
      | none => none
      | some (s', ev') => some (s', ev ++ ev')

/-! History machine: one signal under an arbitrary interleaving of API
calls and of the steps of the goroutines they spawn. -/

/-- Machine state: the signal, the next fresh channel id the runtime would
hand out, and the accumulated event trace. -/
structure St where
  sig : Signal
  fresh : Nat
  trace : List Event
deriving DecidableEq

/-- Atomic steps of a history against one signal.  The method calls
`Timeout`, `Deadline` and `Propagate` return immediately without touching
the signal's fields; they spawn a goroutine whose own actions are separate
steps: `selectEval` (the goroutine calls `sig.Done()` when its `select`
evaluates its cases), `timerFire` (its `time.After` case fired, so it runs
`sig.Cancel()`), `parentFire` (its parent's channel closed first, so it
runs `sig.Cancel()`), and `retire` (its `<-sig.Done()` case fired, only
possible once the signal's channel is closed; the goroutine just exits). -/
inductive Op where
  | cancel
  | doneCall
  | timeoutCall (d : Int)
  | deadlineCall (now t : Int)
  | propagateCall
  | selectEval
  | timerFire
  | parentFire
  | retire
deriving DecidableEq

/-- One atomic step; `none` when the step would panic (`cancel` on a
corrupted state) or is not enabled (`retire` before termination). -/
def step (st : St) (op : Op) : Option St :=
  match op with
  | Op.cancel | Op.timerFire | Op.parentFire =>
    match st.sig.Cancel st.fresh with
    | none => none
    | some (s, ev) => some { sig := s, fresh := st.fresh + 1, trace := st.trace ++ ev }
  | Op.doneCall | Op.selectEval =>
    match st.sig.init st.fresh with
    | (s, ev) => some { sig := s, fresh := st.fresh + 1, trace := st.trace ++ ev }
  | Op.timeoutCall _ | Op.deadlineCall _ _ | Op.propagateCall => some st
  | Op.retire => if st.sig.terminated then some st else none

/-- A history: successive steps, failing if any step does. -/
def run (st : St) : List Op → Option St
  | [] => some st
  | op :: ops =>
    match step st op with
    | none => none
    | some st' => run st' ops

/-- The heap identity of the signal's channel, when allocated. -/
def chanId (sig : Signal) : Option Nat := sig.done.map Chan.id

/-- Invariant tying state and trace: the signal is well-formed and the
trace's allocation events record exactly the signal's channel. -/
def StInv (st : St) : Bool :=
  st.sig.WF &&
  (match st.sig.done with
   | none => mkEvents st.trace == []
   | some c => mkEvents st.trace == [Event.mkChan c.id])

/-! Timeout and Deadline as arrangements: the spawned race. -/

/-- Go `time.Until(t)`, which is `t.Sub(time.Now())`; `now` is the clock
reading of `time.Now()`. -/
def timeUntil (now t : Int) : Int := t - now

/-- The arrangement made by one `Timeout` or `Deadline` call: its goroutine
races `time.After d` against `sig.Done()`. -/
structure TimerTask where
  d : Int
deriving DecidableEq

/-- Go `func (sig *Signal) Timeout(d time.Duration) *Signal`: spawns the
racing goroutine for duration `d` and returns its receiver unchanged. -/
def Signal.Timeout (sig : Signal) (d : Int) : Signal × TimerTask :=
  (sig, { d := d })

/-- Go `func (sig *Signal) Deadline(t time.Time) *Signal`: the body is
`return sig.Timeout(time.Until(t))`. -/
def Signal.Deadline (sig : Signal) (now t : Int) : Signal × TimerTask :=
  sig.Timeout (timeUntil now t)

/-- Modelled from the spec sentence "`Deadline(timestamp)` is equivalent to
`Timeout(timestamp − now)`": the spec-side definition of `Deadline`, to be
compared against the source-side one. -/
def DeadlineSpec (sig : Signal) (now t : Int) : Signal × TimerTask :=
  sig.Timeout (t - now)

/-- Go `time.After(d)` observed `e` nanoseconds after the call (`0 ≤ e`):
its channel has delivered iff the duration has elapsed, which for a
non-positive `d` holds immediately. -/
def afterFires (d e : Int) : Bool := decide (d ≤ e)

/-- The `Timeout` goroutine `e` nanoseconds after its spawn: when its
`time.After` case has delivered it runs `sig.Cancel()`; otherwise that
case is not yet enabled. -/
def timerFireAt (sig : Signal) (task : TimerTask) (e : Int) (fresh : Nat) :
    Option (Signal × List Event) :=
  if afterFires task.d e then sig.Cancel fresh else none

/-! Propagation: a two-signal world for `child.Propagate(parent)`. -/

/-- World of one `Propagate` call: parent and child signals, whether the
propagation goroutine is still running, and a shared fresh-id supply. -/
structure PW where
  parent : Signal
  child : Signal
  task : Bool
  fresh : Nat
deriving DecidableEq

/-- Steps of the propagation world.  `start` is the goroutine entering its
`select`, evaluating `parent.Done()` and `sig.Done()` (so initialising
both signals).  `fireParent` is its `<-parent.Done()` case, enabled once
the parent's channel is closed: it runs `sig.Cancel()` on the child and
the goroutine exits.  `fireChild` is its `<-sig.Done()` case, enabled once
the child's channel is closed: the goroutine just exits.  The remaining
steps are the API calls made by other threads. -/
inductive POp where
  | parentCancel
  | childCancel
  | parentDone
  | childDone
  | start
  | fireParent
  | fireChild
deriving DecidableEq

/-- One step of the propagation world; `none` = panic or not enabled. -/
def pstep (w : PW) (op : POp) : Option PW :=
  match op with
  | POp.parentCancel =>
    match w.parent.Cancel w.fresh with
    | none => none
    | some (p, _) => some { w with parent := p, fresh := w.fresh + 1 }
  | POp.childCancel =>
    match w.child.Cancel w.fresh with
    | none => none
    | some (c, _) => some { w with child := c, fresh := w.fresh + 1 }
  | POp.parentDone =>
    some { w with parent := (w.parent.init w.fresh).1, fresh := w.fresh + 1 }
  | POp.childDone =>
    some { w with child := (w.child.init w.fresh).1, fresh := w.fresh + 1 }
  | POp.start =>
    if w.task then
      some { w with parent := (w.parent.init w.fresh).1,
                    child := (w.child.init (w.fresh + 1)).1, fresh := w.fresh + 2 }
    else none
  | POp.fireParent =>
    if w.task && w.parent.terminated then
      match w.child.Cancel w.fresh with
      | none => none
      | some (c, _) => some { w with child := c, task := false, fresh := w.fresh + 1 }
    else none
  | POp.fireChild =>
    if w.task && w.child.terminated then some { w with task := false } else none

/-- A history of the propagation world. -/
def prun (w : PW) : List POp → Option PW
  | [] => some w
  | op :: ops =>
    match pstep w op with
    | none => none
    | some w' => prun w' ops

/-! Promote: bridging a `Context` to a native `context.Context`. -/

/-- Observable state of the `context.WithCancel` context created by
`Promote`: whether its cancel function has run (its `Done` channel reports
canceled iff so). -/
structure NativeCtx where
  canceled : Bool
deriving DecidableEq

/-- World of one `Promote(ctx)` call: the source context (here a `Signal`,
the package's own `Context` instance), the returned native context, and
whether the mirroring goroutine is still running. -/
structure MW where
  src : Signal
  native : NativeCtx
  task : Bool
  fresh : Nat
deriving DecidableEq

/-- Go `func Promote(ctx Context) (context.Context, func())`: runs
`context.WithCancel(context.Background())` (a fresh, un-canceled native
context) and spawns the mirroring goroutine.  The first return value is
the native context; the second, the release function, is exactly the
`cancel` function of that context — its invocation is the `release`
step below. -/
def Promote (src : Signal) (fresh : Nat) : MW :=
  { src := src, native := { canceled := false }, task := true, fresh := fresh }

/-- Steps around a promoted context.  `release` is the returned
`context.CancelFunc` (idempotent: it cancels the native context).
`srcEval` is the goroutine evaluating `ctx.Done()` when entering its
`select`.  `fireSrc` is its `<-ctx.Done()` case, enabled once the source's
channel is closed: it runs `cancel()` and exits.  `fireNative` is its
`<-sig.Done()` case, enabled once the native context is canceled: it just
exits.  `srcCancel` is another thread canceling the source. -/
inductive MOp where
  | srcCancel
  | release
  | srcEval
  | fireSrc
  | fireNative
deriving DecidableEq

/-- One step of the promote world; `none` = panic or not enabled. -/
def mstep (w : MW) (op : MOp) : Option MW :=
  match op with
  | MOp.srcCancel =>
    match w.src.Cancel w.fresh with
    | none => none
    | some (s, _) => some { w with src := s, fresh := w.fresh + 1 }
  | MOp.release => some { w with native := { canceled := true } }
  | MOp.srcEval =>
    some { w with src := (w.src.init w.fresh).1, fresh := w.fresh + 1 }
  | MOp.fireSrc =>
    if w.task && w.src.terminated then
      some { w with native := { canceled := true }, task := false }
    else none
  | MOp.fireNative =>
    if w.task && w.native.canceled then some { w with task := false } else none

/-- A history of the promote world. -/
def mrun (w : MW) : List MOp → Option MW
  | [] => some w
  | op :: ops =>
    match mstep w op with
    | none => none
    | some w' => mrun w' ops

/-! Basic lemmas about single operations. -/

theorem init_of_make (sig : Signal) (fresh : Nat) (h : sig.make = true) :
    sig.init fresh = (sig, []) := by
  simp [Signal.init, h]

theorem cancel_of_closed (sig : Signal) (fresh : Nat) (h : sig.close = true)
    (hm : sig.make = true) : sig.Cancel fresh = some (sig, []) := by
  simp [Signal.Cancel, init_of_make sig fresh hm, h]

/-- A well-formed signal stays well-formed and ends terminated after `Cancel`,
and `Cancel` never panics on it; the resulting state has both guards fired. -/
theorem cancel_wf (sig : Signal) (fresh : Nat) (h : sig.WF = true) :
    ∃ s ev, sig.Cancel fresh = some (s, ev) ∧ s.WF = true ∧
      s.terminated = true ∧ s.make = true ∧ s.close = true ∧
      countClose ev = (if sig.terminated then 0 else 1) := by
  rcases sig with ⟨d, mk, cl⟩
  cases d with
  | none =>
    simp only [Signal.WF] at h
    obtain ⟨hm, hc⟩ := by simpa using h
    subst hm; subst hc
    refine ⟨{ done := some { id := fresh, closed := true }, make := true, close := true },
      [Event.mkChan fresh, Event.closeChan fresh], ?_, ?_, ?_, ?_, ?_, ?_⟩ <;>
      simp [Signal.Cancel, Signal.init, goClose, Signal.WF, Signal.terminated,
        countClose]
  | some c =>
    simp only [Signal.WF] at h
    obtain ⟨hm, hc⟩ := by simpa using h
    subst hm
    cases hcl : cl with
    | false =>
      subst hcl
      refine ⟨{ done := some { id := c.id, closed := true }, make := true, close := true },
        [Event.closeChan c.id], ?_, ?_, ?_, ?_, ?_, ?_⟩ <;>
        simp [Signal.Cancel, Signal.init, goClose, Signal.WF, Signal.terminated,
          countClose, hc]
    | true =>
      subst hcl
      refine ⟨{ done := some c, make := true, close := true }, [], ?_, ?_, ?_, ?_, ?_, ?_⟩ <;>
        simp [Signal.Cancel, Signal.init, goClose, Signal.WF, Signal.terminated,
          countClose, hc]

/-- Once both guards have fired on a well-formed signal, further `Cancel`s
are exact no-ops with empty traces. -/
theorem cancels_fixed (n : Nat) (sig : Signal) (fresh : Nat)
    (hm : sig.make = true) (hc : sig.close = true) :
    cancels n sig fresh = some (sig, []) := by
  induction n with
  | zero => rfl
  | succ k ih =>
    simp [cancels, cancel_of_closed sig fresh hc hm, ih]

/-- Exhaustive description of `Cancel` on a well-formed state: fresh signal
(allocates then closes), open signal (closes), already terminated signal
(exact no-op). -/
theorem cancel_cases (sig : Signal) (fresh : Nat) (h : sig.WF = true) :
    (sig.done = none ∧ sig.Cancel fresh =
        some ({ done := some { id := fresh, closed := true }, make := true, close := true },
              [Event.mkChan fresh, Event.closeChan fresh])) ∨
    (∃ i, sig.done = some { id := i, closed := false } ∧ sig.Cancel fresh =
        some ({ done := some { id := i, closed := true }, make := true, close := true },
              [Event.closeChan i])) ∨
    (∃ i, sig.done = some { id := i, closed := true } ∧ sig.Cancel fresh = some (sig, [])) := by
  rcases sig with ⟨d, mk, cl⟩
  cases d with
  | none =>
    simp only [Signal.WF] at h
    obtain ⟨hm, hc⟩ := by simpa using h
    subst hm; subst hc
    exact Or.inl ⟨rfl, by simp [Signal.Cancel, Signal.init, goClose]⟩
  | some c =>
    simp only [Signal.WF] at h
    obtain ⟨hm, hc⟩ := by simpa using h
    subst hm
    cases hcl : cl with
    | false =>
      subst hcl
      refine Or.inr (Or.inl ⟨c.id, ?_, ?_⟩)
      · simp [← hc]
      · simp [Signal.Cancel, Signal.init, goClose, hc]
    | true =>
      subst hcl
      refine Or.inr (Or.inr ⟨c.id, ?_, ?_⟩)
      · simp [← hc]
      · simp [Signal.Cancel, Signal.init, goClose, hc]

/-- Exhaustive description of `init` on a well-formed state: it allocates
exactly when the channel is still nil, otherwise it is an exact no-op. -/
theorem init_cases (sig : Signal) (fresh : Nat) (h : sig.WF = true) :
    (sig.done = none ∧ sig.close = false ∧ sig.init fresh =
        ({ done := some { id := fresh, closed := false }, make := true, close := false },
         [Event.mkChan fresh])) ∨
    (∃ c, sig.done = some c ∧ sig.init fresh = (sig, [])) := by
  rcases sig with ⟨d, mk, cl⟩
  cases d with
  | none =>
    simp only [Signal.WF] at h
    obtain ⟨hm, hc⟩ := by simpa using h
    subst hm; subst hc
    exact Or.inl ⟨rfl, rfl, by simp [Signal.init]⟩
  | some c =>
    simp only [Signal.WF] at h
    obtain ⟨hm, hc⟩ := by simpa using h
    subst hm
    exact Or.inr ⟨c, rfl, by simp [Signal.init]⟩

/-- On a well-formed signal, `init` preserves well-formedness and the
observable termination state. -/
theorem init_wf (sig : Signal) (fresh : Nat) (h : sig.WF = true) :
    (sig.init fresh).1.WF = true ∧ (sig.init fresh).1.terminated = sig.terminated := by
  rcases init_cases sig fresh h with ⟨hd, hcl, hI⟩ | ⟨c, hd, hI⟩
  · rw [hI]
    constructor
    · simp [Signal.WF]
    · simp [Signal.terminated, hd]
  · rw [hI]
    exact ⟨h, rfl⟩

/-- On a well-formed signal, `n + 1` `Cancel` calls produce exactly the state
and trace of the first call. -/
theorem cancels_succ_wf (n : Nat) (sig : Signal) (fresh : Nat) (h : sig.WF = true) :
    cancels (n + 1) sig fresh = sig.Cancel fresh := by
  obtain ⟨s, ev, hC, _, _, hM, hCl, _⟩ := cancel_wf sig fresh h
  simp [cancels, hC, cancels_fixed n s fresh hM hCl]

/-- C1: calling `Cancel` any number `n ≥ 1` of times on the same well-formed
signal has exactly the effect of calling it once (`sync.Once` serialises the
bodies, so every concurrent history equals this serial one): the final state
and the whole emitted trace coincide with those of a single call, no call
panics, the signal ends terminated, and the channel close executes exactly
once (zero times when the signal was already terminated beforehand). -/
theorem cancel_idempotent (sig : Signal) (fresh n : Nat)
    (hwf : sig.WF = true) (hn : 1 ≤ n) :
    cancels n sig fresh = cancels 1 sig fresh ∧
    ∃ s ev, cancels n sig fresh = some (s, ev) ∧ s.terminated = true ∧
      countClose ev = (if sig.terminated then 0 else 1) := by
  obtain ⟨m, rfl⟩ : ∃ m, n = m + 1 := ⟨n - 1, by omega⟩
  obtain ⟨s, ev, hC, _, hT, _, _, hcount⟩ := cancel_wf sig fresh hwf
  refine ⟨?_, s, ev, ?_, hT, hcount⟩
  · rw [cancels_succ_wf m sig fresh hwf, cancels_succ_wf 0 sig fresh hwf]
  · rw [cancels_succ_wf m sig fresh hwf]; exact hC

theorem cancel_idempotent_witness :
    zeroSignal.WF = true ∧ 1 ≤ 3 ∧
    (cancels 3 zeroSignal 0 = cancels 1 zeroSignal 0 ∧
     ∃ s ev, cancels 3 zeroSignal 0 = some (s, ev) ∧ s.terminated = true ∧
       countClose ev = (if zeroSignal.terminated then 0 else 1)) :=
  ⟨by decide, by decide, cancel_idempotent zeroSignal 0 3 (by decide) (by decide)⟩

theorem mkEvents_append (a b : List Event) :
    mkEvents (a ++ b) = mkEvents a ++ mkEvents b := by
  simp [mkEvents]

/-- Every enabled step preserves the invariant, preserves termination, and
never changes the identity of an already-allocated channel. -/
theorem step_inv (st st' : St) (op : Op) (h : step st op = some st')
    (hi : StInv st = true) :
    StInv st' = true ∧
    (st.sig.terminated = true → st'.sig.terminated = true) ∧
    (∀ i, chanId st.sig = some i → chanId st'.sig = some i) := by
  have hwf : st.sig.WF = true := by
    simp only [StInv, Bool.and_eq_true] at hi; exact hi.1
  have htr0 : st.sig.done = none → mkEvents st.trace = [] := by
    intro hd
    simp only [StInv, Bool.and_eq_true, beq_iff_eq, hd] at hi; exact hi.2
  have htr1 : ∀ c, st.sig.done = some c → mkEvents st.trace = [Event.mkChan c.id] := by
    intro c hd
    simp only [StInv, Bool.and_eq_true, beq_iff_eq, hd] at hi; exact hi.2
  cases op with
  | cancel | timerFire | parentFire =>
    rcases cancel_cases st.sig st.fresh hwf with
      ⟨hd, hC⟩ | ⟨i, hd, hC⟩ | ⟨i, hd, hC⟩
    · simp only [step, hC] at h
      injection h with h; subst h
      have h1 : List.filter isMk st.trace = [] := htr0 hd
      refine ⟨?_, ?_, ?_⟩
      · simp [StInv, Signal.WF, mkEvents, isMk, h1]
      · intro hterm; simp [Signal.terminated, hd] at hterm
      · intro j hj; simp [chanId, hd] at hj
    · simp only [step, hC] at h
      injection h with h; subst h
      have h1 : List.filter isMk st.trace = [Event.mkChan i] := by
        simpa [mkEvents] using htr1 _ hd
      refine ⟨?_, ?_, ?_⟩
      · simp [StInv, Signal.WF, mkEvents, isMk, h1]
      · intro hterm; simp [Signal.terminated, hd] at hterm
      · intro j hj
        simp only [chanId, hd, Option.map_some, Option.some.injEq] at hj
        simp [chanId, ← hj]
    · simp only [step, hC] at h
      injection h with h; subst h
      refine ⟨?_, ?_, ?_⟩
      · simpa [StInv, mkEvents_append, mkEvents] using hi
      · intro hterm; exact hterm
      · intro j hj; exact hj
  | doneCall | selectEval =>
    rcases init_cases st.sig st.fresh hwf with ⟨hd, hcl, hI⟩ | ⟨c, hd, hI⟩
    · simp only [step, hI] at h
      injection h with h; subst h
      have h1 : List.filter isMk st.trace = [] := htr0 hd
      refine ⟨?_, ?_, ?_⟩
      · simp [StInv, Signal.WF, mkEvents, isMk, h1]
      · intro hterm; simp [Signal.terminated, hd] at hterm
      · intro j hj; simp [chanId, hd] at hj
    · simp only [step, hI] at h
      injection h with h; subst h
      refine ⟨?_, ?_, ?_⟩
      · simpa [StInv, mkEvents_append, mkEvents] using hi
      · intro hterm; exact hterm
      · intro j hj; exact hj
  | timeoutCall d =>
    simp only [step, Option.some.injEq] at h; subst h
    exact ⟨hi, fun a => a, fun i a => a⟩
  | deadlineCall now t =>
    simp only [step, Option.some.injEq] at h; subst h
    exact ⟨hi, fun a => a, fun i a => a⟩
  | propagateCall =>
    simp only [step, Option.some.injEq] at h; subst h
    exact ⟨hi, fun a => a, fun i a => a⟩
  | retire =>
    simp only [step] at h
    split at h
    · injection h with h; subst h
      exact ⟨hi, fun a => a, fun i a => a⟩
    · simp at h

/-- `run` preserves the step invariants transitively. -/
theorem run_inv (ops : List Op) (st st' : St) (h : run st ops = some st')
    (hi : StInv st = true) :
    StInv st' = true ∧
    (st.sig.terminated = true → st'.sig.terminated = true) ∧
    (∀ i, chanId st.sig = some i → chanId st'.sig = some i) := by
  induction ops generalizing st with
  | nil =>
    simp only [run] at h
    injection h with h; subst h
    exact ⟨hi, fun a => a, fun i a => a⟩
  | cons op ops ih =>
    simp only [run] at h
    rcases hs : step st op with _ | st₁ <;> rw [hs] at h <;> simp at h
    obtain ⟨h1, h2, h3⟩ := step_inv st st₁ op hs hi
    obtain ⟨g1, g2, g3⟩ := ih st₁ h h1
    exact ⟨g1, fun a => g2 (h2 a), fun i a => g3 i (h3 i a)⟩

/-- C2: termination is monotonic and absorbing: from any invariant-satisfying
state, along any history of API calls and goroutine steps (`Cancel`, `Done`,
`Timeout`, `Deadline`, `Propagate` calls and the firing/retiring of their
spawned goroutines), once the signal is terminated it stays terminated, and
at the end every `Done()` call returns a channel that is already closed
(reports terminated). -/
theorem terminated_absorbing (st st' : St) (ops : List Op)
    (hinv : StInv st = true) (hrun : run st ops = some st')
    (hterm : st.sig.terminated = true) :
    st'.sig.terminated = true ∧
    ∀ f, ∃ c, (st'.sig.Done f).2.2 = some c ∧ c.closed = true := by
  obtain ⟨hi', hmono, _⟩ := run_inv ops st st' hrun hinv
  have ht' : st'.sig.terminated = true := hmono hterm
  refine ⟨ht', fun f => ?_⟩
  have hwf : st'.sig.WF = true := by
    simp only [StInv, Bool.and_eq_true] at hi'; exact hi'.1
  rcases init_cases st'.sig f hwf with ⟨hd, _, _⟩ | ⟨c, hd, hI⟩
  · simp [Signal.terminated, hd] at ht'
  · refine ⟨c, ?_, ?_⟩
    · simp [Signal.Done, hI, hd]
    · simpa [Signal.terminated, hd] using ht'

theorem terminated_absorbing_witness :
    StInv { sig := { done := some { id := 0, closed := true }, make := true, close := true },
            fresh := 1, trace := [Event.mkChan 0] } = true ∧
    run { sig := { done := some { id := 0, closed := true }, make := true, close := true },
          fresh := 1, trace := [Event.mkChan 0] }
        [Op.doneCall, Op.cancel, Op.retire, Op.timeoutCall 5] =
      some { sig := { done := some { id := 0, closed := true }, make := true, close := true },
             fresh := 3, trace := [Event.mkChan 0] } ∧
    Signal.terminated { done := some { id := 0, closed := true }, make := true, close := true }
      = true ∧
    (Signal.terminated { done := some { id := 0, closed := true }, make := true, close := true }
      = true ∧
     ∀ f, ∃ c,
      (Signal.Done { done := some { id := 0, closed := true }, make := true, close := true }
        f).2.2 = some c ∧ c.closed = true) :=
  ⟨by decide, by decide, by decide,
    terminated_absorbing
      { sig := { done := some { id := 0, closed := true }, make := true, close := true },
        fresh := 1, trace := [Event.mkChan 0] }
      { sig := { done := some { id := 0, closed := true }, make := true, close := true },
        fresh := 3, trace := [Event.mkChan 0] }
      [Op.doneCall, Op.cancel, Op.retire, Op.timeoutCall 5]
      (by decide) (by decide) (by decide)⟩

/-- On an invariant-satisfying state whose channel is allocated with identity
`i`, a `Done()` call leaves the state alone and returns that very channel,
closed whenever the signal is terminated. -/
theorem done_of_chanId (st : St) (f i : Nat) (hinv : StInv st = true)
    (hc : chanId st.sig = some i) :
    ∃ c, (st.sig.Done f).2.2 = some c ∧ c.id = i ∧
      (st.sig.terminated = true → c.closed = true) := by
  have hwf : st.sig.WF = true := by
    simp only [StInv, Bool.and_eq_true] at hinv; exact hinv.1
  rcases hd : st.sig.done with _ | c
  · simp [chanId, hd] at hc
  · have hI : st.sig.init f = (st.sig, []) := by
      rcases init_cases st.sig f hwf with ⟨hd', _, _⟩ | ⟨c', hd', hI'⟩
      · rw [hd'] at hd; cases hd
      · exact hI'
    refine ⟨c, by simp [Signal.Done, hI, hd], by simpa [chanId, hd] using hc, ?_⟩
    intro ht; simpa [Signal.terminated, hd] using ht

/-- C4: every `Done()` call on the same signal is tied to the same single
underlying channel: the channel returned by a first `Done()` call and the
one returned by a later `Done()` call, after an arbitrary further history,
have the same heap identity; the returned handle is never nil, the call is
safe at any time, and after termination the returned handle is already
closed (signaled). -/
theorem done_same_channel (st st₁ st₂ : St) (ops : List Op) (f : Nat)
    (hinv : StInv st = true)
    (h₁ : step st Op.doneCall = some st₁)
    (hrun : run st₁ ops = some st₂) :
    ∃ c₁, (st.sig.Done st.fresh).2.2 = some c₁ ∧
      ∃ c₂, (st₂.sig.Done f).2.2 = some c₂ ∧ c₂.id = c₁.id ∧
        (st₂.sig.terminated = true → c₂.closed = true) := by
  have hwf : st.sig.WF = true := by
    simp only [StInv, Bool.and_eq_true] at hinv; exact hinv.1
  obtain ⟨hi₁, _, _⟩ := step_inv st st₁ Op.doneCall h₁ hinv
  obtain ⟨hi₂, _, hid₂⟩ := run_inv ops st₁ st₂ hrun hi₁
  have hfirst : ∃ c₁, (st.sig.Done st.fresh).2.2 = some c₁ ∧
      chanId st₁.sig = some c₁.id := by
    rcases init_cases st.sig st.fresh hwf with ⟨hd, hcl, hI⟩ | ⟨c, hd, hI⟩
    · refine ⟨{ id := st.fresh, closed := false }, by simp [Signal.Done, hI], ?_⟩
      simp only [step, hI] at h₁
      injection h₁ with h₁; subst h₁
      simp [chanId]
    · refine ⟨c, by simp [Signal.Done, hI, hd], ?_⟩
      simp only [step, hI] at h₁
      injection h₁ with h₁; subst h₁
      simp [chanId, hd]
  obtain ⟨c₁, hc₁done, hc₁id⟩ := hfirst
  obtain ⟨c₂, h₂done, h₂id, h₂cl⟩ := done_of_chanId st₂ f c₁.id hi₂ (hid₂ _ hc₁id)
  exact ⟨c₁, hc₁done, c₂, h₂done, h₂id, h₂cl⟩

theorem done_same_channel_witness :
    StInv { sig := zeroSignal, fresh := 0, trace := [] } = true ∧
    step { sig := zeroSignal, fresh := 0, trace := [] } Op.doneCall =
      some { sig := { done := some { id := 0, closed := false }, make := true, close := false },
             fresh := 1, trace := [Event.mkChan 0] } ∧
    run { sig := { done := some { id := 0, closed := false }, make := true, close := false },
          fresh := 1, trace := [Event.mkChan 0] } [Op.cancel] =
      some { sig := { done := some { id := 0, closed := true }, make := true, close := true },
             fresh := 2, trace := [Event.mkChan 0, Event.closeChan 0] } ∧
    (∃ c₁, (Signal.Done zeroSignal 0).2.2 = some c₁ ∧
      ∃ c₂, (Signal.Done { done := some { id := 0, closed := true }, make := true, close := true }
          7).2.2 = some c₂ ∧ c₂.id = c₁.id ∧
        (Signal.terminated { done := some { id := 0, closed := true }, make := true, close := true }
          = true → c₂.closed = true)) :=
  ⟨by decide, by decide, by decide,
    done_same_channel
      { sig := zeroSignal, fresh := 0, trace := [] }
      { sig := { done := some { id := 0, closed := false }, make := true, close := false },
        fresh := 1, trace := [Event.mkChan 0] }
      { sig := { done := some { id := 0, closed := true }, make := true, close := true },
        fresh := 2, trace := [Event.mkChan 0, Event.closeChan 0] }
      [Op.cancel] 7 (by decide) (by decide) (by decide)⟩

/-- C10: the zero value `&Signal{}` is fully usable without `New`: a first
`Done()` lazily allocates the notifier and returns a non-nil (still open)
channel, a first `Cancel()` also initialises and terminates the signal
without panicking, and along any history started from the zero value the
channel is allocated at most once, every allocated channel being the one
recorded by the single `mkChan` event — so `New`, `Done` and `Cancel` all
operate on that same single underlying channel. -/
theorem zero_value_usable (ops : List Op) (st' : St) (f : Nat)
    (hrun : run { sig := zeroSignal, fresh := f, trace := [] } ops = some st') :
    (∃ c, (zeroSignal.Done f).2.2 = some c ∧ c.closed = false) ∧
    (∃ s ev, zeroSignal.Cancel f = some (s, ev) ∧ s.terminated = true) ∧
    countMk st'.trace ≤ 1 ∧
    (∀ c, st'.sig.done = some c → mkEvents st'.trace = [Event.mkChan c.id]) := by
  have h0 : StInv { sig := zeroSignal, fresh := f, trace := [] } = true := by
    simp [StInv, zeroSignal, Signal.WF, mkEvents]
  obtain ⟨hi', _, _⟩ := run_inv ops _ st' hrun h0
  have htr0 : st'.sig.done = none → mkEvents st'.trace = [] := by
    intro hd
    simp only [StInv, Bool.and_eq_true, beq_iff_eq, hd] at hi'; exact hi'.2
  have htr1 : ∀ c, st'.sig.done = some c → mkEvents st'.trace = [Event.mkChan c.id] := by
    intro c hd
    simp only [StInv, Bool.and_eq_true, beq_iff_eq, hd] at hi'; exact hi'.2
  refine ⟨⟨{ id := f, closed := false }, ?_, rfl⟩, ?_, ?_, fun c hd => htr1 c hd⟩
  · simp [Signal.Done, Signal.init, zeroSignal]
  · refine ⟨{ done := some { id := f, closed := true }, make := true, close := true },
      [Event.mkChan f, Event.closeChan f], ?_, ?_⟩
    · simp [Signal.Cancel, Signal.init, goClose, zeroSignal]
    · simp [Signal.terminated]
  · rcases hd : st'.sig.done with _ | c
    · simp [countMk, htr0 hd]
    · simp [countMk, htr1 c hd]

theorem zero_value_usable_witness :
    run { sig := zeroSignal, fresh := 0, trace := [] } [Op.cancel, Op.doneCall] =
      some { sig := { done := some { id := 0, closed := true }, make := true, close := true },
             fresh := 2, trace := [Event.mkChan 0, Event.closeChan 0] } ∧
    ((∃ c, (zeroSignal.Done 0).2.2 = some c ∧ c.closed = false) ∧
     (∃ s ev, zeroSignal.Cancel 0 = some (s, ev) ∧ s.terminated = true) ∧
     countMk [Event.mkChan 0, Event.closeChan 0] ≤ 1 ∧
     (∀ c : Chan, (some { id := 0, closed := true } : Option Chan) = some c →
        mkEvents [Event.mkChan 0, Event.closeChan 0] = [Event.mkChan c.id])) :=
  ⟨by decide, zero_value_usable [Op.cancel, Op.doneCall]
    { sig := { done := some { id := 0, closed := true }, make := true, close := true },
      fresh := 2, trace := [Event.mkChan 0, Event.closeChan 0] } 0 (by decide)⟩

/-- C3 counterexample: the claim that construction has no observable side
effect — that the internal notifier is not initialised until the first
`Done()` or `Cancel()` — is false of `New`: `New` calls `sig.init()`
itself, so already at construction it emits the allocation event and
returns a signal whose `done` channel is non-nil. -/
theorem new_not_deferred_counterexample :
    ¬ ((New 0).2 = [] ∧ (New 0).1.done = none) := by decide

/-- C3 amended: `New` initialises the internal notifier eagerly, during
construction (its result is exactly the zero value after one `init`, with
the allocation event emitted and the channel allocated but open); deferred
initialisation instead belongs to the zero value `&Signal{}`, whose
notifier does not exist until the first access performs it, e.g. a first
`Done()`. -/
theorem new_eager_zero_lazy (fresh : Nat) :
    New fresh = zeroSignal.init fresh ∧
    (New fresh).1.done = some { id := fresh, closed := false } ∧
    (New fresh).2 = [Event.mkChan fresh] ∧
    zeroSignal.done = none ∧
    (zeroSignal.Done fresh).2.2 = some { id := fresh, closed := false } := by
  refine ⟨rfl, ?_, ?_, rfl, ?_⟩ <;> simp [New, zeroSignal, Signal.init, Signal.Done]

/-- C5: `Deadline(t)` read at clock value `now` produces exactly the
arrangement of `Timeout(t − now)`: the very same spawned race (a timer of
duration `time.Until(t) = t − now`) and the same returned signal, namely
the receiver itself. -/
theorem deadline_is_timeout (sig : Signal) (now t : Int) :
    sig.Deadline now t = DeadlineSpec sig now t ∧
    sig.Deadline now t = sig.Timeout (timeUntil now t) ∧
    (sig.Deadline now t).1 = sig ∧
    (sig.Deadline now t).2 = (sig.Timeout (t - now)).2 :=
  ⟨rfl, rfl, rfl, rfl⟩

/-- C6: a `Timeout` with non-positive duration — and equally a `Deadline`
whose timestamp is not after the current time, since its duration
`t − now` is then non-positive — is not an error: the spawned race's
`time.After` case has already delivered at elapsed time `0`, and its
firing then runs `Cancel` successfully, leaving the signal terminated
immediately. -/
theorem timeout_nonpositive_immediate (sig : Signal) (d now t : Int) (fresh : Nat)
    (hwf : sig.WF = true) (hd : d ≤ 0) (ht : t ≤ now) :
    afterFires d 0 = true ∧
    afterFires (sig.Deadline now t).2.d 0 = true ∧
    ∃ s ev, timerFireAt sig (sig.Timeout d).2 0 fresh = some (s, ev) ∧
      s.terminated = true := by
  have h1 : afterFires d 0 = true := by simp [afterFires]; omega
  have h2 : afterFires (sig.Deadline now t).2.d 0 = true := by
    simp [Signal.Deadline, Signal.Timeout, timeUntil, afterFires]; omega
  obtain ⟨s, ev, hC, _, hT, _, _, _⟩ := cancel_wf sig fresh hwf
  exact ⟨h1, h2, s, ev, by simp [timerFireAt, Signal.Timeout, h1, hC], hT⟩

theorem timeout_nonpositive_immediate_witness :
    zeroSignal.WF = true ∧ (-5 : Int) ≤ 0 ∧ (3 : Int) ≤ 10 ∧
    (afterFires (-5) 0 = true ∧
     afterFires (zeroSignal.Deadline 10 3).2.d 0 = true ∧
     ∃ s ev, timerFireAt zeroSignal (zeroSignal.Timeout (-5)).2 0 0 = some (s, ev) ∧
       s.terminated = true) :=
  ⟨by decide, by decide, by decide,
    timeout_nonpositive_immediate zeroSignal (-5) 10 3 0 (by decide) (by decide) (by decide)⟩

/-- Any propagation-world step preserves well-formedness of both signals,
and every step other than `parentCancel` leaves the parent's termination
state unchanged. -/
theorem pstep_parent (w w' : PW) (op : POp) (h : pstep w op = some w')
    (hp : w.parent.WF = true) (hc : w.child.WF = true) :
    w'.parent.WF = true ∧ w'.child.WF = true ∧
    (op ≠ POp.parentCancel → w'.parent.terminated = w.parent.terminated) := by
  cases op with
  | parentCancel =>
    obtain ⟨p, ev, hC, hW, _, _, _, _⟩ := cancel_wf w.parent w.fresh hp
    simp only [pstep, hC] at h
    injection h with h; subst h
    exact ⟨hW, hc, fun hne => absurd rfl hne⟩
  | childCancel =>
    obtain ⟨c, ev, hC, hW, _, _, _, _⟩ := cancel_wf w.child w.fresh hc
    simp only [pstep, hC] at h
    injection h with h; subst h
    exact ⟨hp, hW, fun _ => rfl⟩
  | parentDone =>
    simp only [pstep] at h
    injection h with h; subst h
    obtain ⟨h1, h2⟩ := init_wf w.parent w.fresh hp
    exact ⟨h1, hc, fun _ => h2⟩
  | childDone =>
    simp only [pstep] at h
    injection h with h; subst h
    exact ⟨hp, (init_wf w.child w.fresh hc).1, fun _ => rfl⟩
  | start =>
    simp only [pstep] at h
    split at h
    · injection h with h; subst h
      obtain ⟨h1, h2⟩ := init_wf w.parent w.fresh hp
      exact ⟨h1, (init_wf w.child (w.fresh + 1) hc).1, fun _ => h2⟩
    · exact Option.noConfusion h
  | fireParent =>
    simp only [pstep] at h
    split at h
    · obtain ⟨c, ev, hC, hW, _, _, _, _⟩ := cancel_wf w.child w.fresh hc
      simp only [hC] at h
      injection h with h; subst h
      exact ⟨hp, hW, fun _ => rfl⟩
    · exact Option.noConfusion h
  | fireChild =>
    simp only [pstep] at h
    split at h
    · injection h with h; subst h
      exact ⟨hp, hc, fun _ => rfl⟩
    · exact Option.noConfusion h

/-- `prun` without any `parentCancel` preserves well-formedness of both
signals and the parent's termination state. -/
theorem prun_parent (ops : List POp) (w w' : PW) (h : prun w ops = some w')
    (hp : w.parent.WF = true) (hc : w.child.WF = true)
    (hno : ∀ op ∈ ops, op ≠ POp.parentCancel) :
    w'.parent.WF = true ∧ w'.child.WF = true ∧
    w'.parent.terminated = w.parent.terminated := by
  induction ops generalizing w with
  | nil =>
    simp only [prun] at h
    injection h with h; subst h
    exact ⟨hp, hc, rfl⟩
  | cons op ops ih =>
    simp only [prun] at h
    rcases hs : pstep w op with _ | w₁ <;> rw [hs] at h <;> simp at h
    obtain ⟨h1, h2, h3⟩ := pstep_parent w w₁ op hs hp hc
    obtain ⟨g1, g2, g3⟩ := ih w₁ h h1 h2 (fun o ho => hno o (List.mem_cons_of_mem _ ho))
    exact ⟨g1, g2, g3.trans (h3 (hno op (List.mem_cons_self _ _)))⟩

/-- C7: propagation escalates cancellation from the parent to the child and
never the reverse.  (i) Along any history containing no `parentCancel` —
i.e. any sequence of child-side operations, the child's own cancellation
included — the parent's termination state is unchanged.  (ii) With the
goroutine running and the parent terminated, the goroutine's parent case
cancels the child, terminating it and retiring the goroutine; and while the
child is still pending, that is the goroutine's only enabled case, its exit
case being disabled. -/
theorem propagate_escalation (w w' : PW) (ops : List POp)
    (hp : w.parent.WF = true) (hc : w.child.WF = true)
    (hrun : prun w ops = some w')
    (hno : ∀ op ∈ ops, op ≠ POp.parentCancel) :
    w'.parent.terminated = w.parent.terminated ∧
    (w.task = true → w.parent.terminated = true →
      (∃ w₁, pstep w POp.fireParent = some w₁ ∧ w₁.child.terminated = true ∧
        w₁.task = false) ∧
      (w.child.terminated = false → pstep w POp.fireChild = none)) := by
  obtain ⟨_, _, h3⟩ := prun_parent ops w w' hrun hp hc hno
  refine ⟨h3, fun htask hpt => ⟨?_, ?_⟩⟩
  · obtain ⟨c, ev, hC, _, hT, _, _, _⟩ := cancel_wf w.child w.fresh hc
    refine ⟨{ w with child := c, task := false, fresh := w.fresh + 1 }, ?_, hT, rfl⟩
    simp [pstep, htask, hpt, hC]
  · intro hcf
    simp [pstep, hcf]

theorem propagate_escalation_witness :
    Signal.WF { done := some { id := 0, closed := true }, make := true, close := true }
      = true ∧
    zeroSignal.WF = true ∧
    prun { parent := { done := some { id := 0, closed := true }, make := true, close := true },
           child := zeroSignal, task := true, fresh := 1 } [POp.fireParent] =
      some { parent := { done := some { id := 0, closed := true }, make := true, close := true },
             child := { done := some { id := 1, closed := true }, make := true, close := true },
             task := false, fresh := 2 } ∧
    (∀ op ∈ [POp.fireParent], op ≠ POp.parentCancel) ∧
    (Signal.terminated
        { done := some { id := 0, closed := true }, make := true, close := true } =
      Signal.terminated
        { done := some { id := 0, closed := true }, make := true, close := true } ∧
     (true = true →
      Signal.terminated
        { done := some { id := 0, closed := true }, make := true, close := true } = true →
      (∃ w₁, pstep { parent := { done := some { id := 0, closed := true }, make := true,
                                 close := true },
                     child := zeroSignal, task := true, fresh := 1 } POp.fireParent =
          some w₁ ∧ w₁.child.terminated = true ∧ w₁.task = false) ∧
      (zeroSignal.terminated = false →
        pstep { parent := { done := some { id := 0, closed := true }, make := true,
                            close := true },
                child := zeroSignal, task := true, fresh := 1 } POp.fireChild = none))) :=
  ⟨by decide, by decide, by decide, by decide,
    propagate_escalation
      { parent := { done := some { id := 0, closed := true }, make := true, close := true },
        child := zeroSignal, task := true, fresh := 1 }
      { parent := { done := some { id := 0, closed := true }, make := true, close := true },
        child := { done := some { id := 1, closed := true }, make := true, close := true },
        task := false, fresh := 2 }
      [POp.fireParent] (by decide) (by decide) (by decide) (by decide)⟩

/-- Any promote-world step preserves the source's well-formedness, keeps a
canceled native context canceled, and never restarts an exited goroutine. -/
theorem mstep_inv (w w' : MW) (op : MOp) (h : mstep w op = some w')
    (hwf : w.src.WF = true) :
    w'.src.WF = true ∧
    (w.native.canceled = true → w'.native.canceled = true) ∧
    (w.task = false → w'.task = false) := by
  cases op with
  | srcCancel =>
    obtain ⟨s, ev, hC, hW, _, _, _, _⟩ := cancel_wf w.src w.fresh hwf
    simp only [mstep, hC] at h
    injection h with h; subst h
    exact ⟨hW, fun a => a, fun a => a⟩
  | release =>
    simp only [mstep] at h
    injection h with h; subst h
    exact ⟨hwf, fun _ => rfl, fun a => a⟩
  | srcEval =>
    simp only [mstep] at h
    injection h with h; subst h
    exact ⟨(init_wf w.src w.fresh hwf).1, fun a => a, fun a => a⟩
  | fireSrc =>
    simp only [mstep] at h
    split at h
    · injection h with h; subst h
      exact ⟨hwf, fun _ => rfl, fun _ => rfl⟩
    · exact Option.noConfusion h
  | fireNative =>
    simp only [mstep] at h
    split at h
    · injection h with h; subst h
      exact ⟨hwf, fun a => a, fun _ => rfl⟩
    · exact Option.noConfusion h

/-- `mrun` preserves the promote-world step invariants transitively. -/
theorem mrun_inv (ops : List MOp) (w w' : MW) (h : mrun w ops = some w')
    (hwf : w.src.WF = true) :
    w'.src.WF = true ∧
    (w.native.canceled = true → w'.native.canceled = true) ∧
    (w.task = false → w'.task = false) := by
  induction ops generalizing w with
  | nil =>
    simp only [mrun] at h
    injection h with h; subst h
    exact ⟨hwf, fun a => a, fun a => a⟩
  | cons op ops ih =>
    simp only [mrun] at h
    rcases hs : mstep w op with _ | w₁ <;> rw [hs] at h <;> simp at h
    obtain ⟨h1, h2, h3⟩ := mstep_inv w w₁ op hs hwf
    obtain ⟨g1, g2, g3⟩ := ih w₁ h h1
    exact ⟨g1, fun a => g2 (h2 a), fun a => g3 (h3 a)⟩

/-- C8: `Promote` bridges in both regimes.  (a) Whenever the mirroring
goroutine is running and the source has terminated, the goroutine's source
case cancels the native context and exits — canceling the source makes the
native handle report canceled.  (b) The release function invoked on a fresh
bridge (source not yet canceled) cancels the bridge's own terminal state,
the goroutine can then exit through its native case, and along any
subsequent history the native context stays exactly canceled with the
goroutine retired, while a late cancellation of the source still succeeds
(no panic) and does not change the native context or revive the task. -/
theorem promote_bridge (src : Signal) (f : Nat) (ops : List MOp) (w' : MW)
    (hwf : src.WF = true)
    (hrun : mrun { src := src, native := { canceled := true }, task := false, fresh := f }
      ops = some w') :
    (∀ w : MW, w.task = true → w.src.terminated = true →
      ∃ w₁, mstep w MOp.fireSrc = some w₁ ∧ w₁.native.canceled = true ∧
        w₁.task = false) ∧
    mstep (Promote src f) MOp.release =
      some { src := src, native := { canceled := true }, task := true, fresh := f } ∧
    mstep { src := src, native := { canceled := true }, task := true, fresh := f }
        MOp.fireNative =
      some { src := src, native := { canceled := true }, task := false, fresh := f } ∧
    w'.native.canceled = true ∧ w'.task = false ∧
    (∃ w₃, mstep w' MOp.srcCancel = some w₃ ∧ w₃.native = w'.native ∧
      w₃.task = w'.task) := by
  obtain ⟨hW', hN', hT'⟩ := mrun_inv ops _ w' hrun hwf
  refine ⟨?_, ?_, ?_, hN' rfl, hT' rfl, ?_⟩
  · intro w htask hterm
    refine ⟨{ w with native := { canceled := true }, task := false }, ?_, rfl, rfl⟩
    simp [mstep, htask, hterm]
  · simp [mstep, Promote]
  · simp [mstep]
  · obtain ⟨s, ev, hC, _, _, _, _, _⟩ := cancel_wf w'.src w'.fresh hW'
    exact ⟨{ w' with src := s, fresh := w'.fresh + 1 }, by simp [mstep, hC], rfl, rfl⟩

theorem promote_bridge_witness :
    zeroSignal.WF = true ∧
    mrun { src := zeroSignal, native := { canceled := true }, task := false, fresh := 0 }
        [MOp.srcCancel] =
      some { src := { done := some { id := 0, closed := true }, make := true, close := true },
             native := { canceled := true }, task := false, fresh := 1 } ∧
    ((∀ w : MW, w.task = true → w.src.terminated = true →
      ∃ w₁, mstep w MOp.fireSrc = some w₁ ∧ w₁.native.canceled = true ∧
        w₁.task = false) ∧
     mstep (Promote zeroSignal 0) MOp.release =
      some { src := zeroSignal, native := { canceled := true }, task := true, fresh := 0 } ∧
     mstep { src := zeroSignal, native := { canceled := true }, task := true, fresh := 0 }
        MOp.fireNative =
      some { src := zeroSignal, native := { canceled := true }, task := false, fresh := 0 } ∧
     NativeCtx.canceled { canceled := true } = true ∧ false = false ∧
     (∃ w₃, mstep { src := { done := some { id := 0, closed := true }, make := true,
                             close := true },
                    native := { canceled := true }, task := false, fresh := 1 }
        MOp.srcCancel = some w₃ ∧ w₃.native = { canceled := true } ∧ w₃.task = false)) :=
  ⟨by decide, by decide,
    promote_bridge zeroSignal 0 [MOp.srcCancel]
      { src := { done := some { id := 0, closed := true }, make := true, close := true },
        native := { canceled := true }, task := false, fresh := 1 }
      (by decide) (by decide)⟩

/-- C9: the release function returned by `Promote` is the returned context's
own cancel function: invoking it on a fresh bridge whose source was never
canceled cancels the native context itself (its state becomes canceled while
the source stays pending and untouched), and in addition it enables the
mirroring goroutine to exit through its native case. -/
theorem promote_release_cancels_native (src : Signal) (f : Nat)
    (hpend : src.terminated = false) :
    ∃ w₁, mstep (Promote src f) MOp.release = some w₁ ∧
      w₁.native.canceled = true ∧ w₁.src = src ∧ w₁.src.terminated = false ∧
      ∃ w₂, mstep w₁ MOp.fireNative = some w₂ ∧ w₂.task = false ∧
        w₂.native.canceled = true ∧ w₂.src = src := by
  refine ⟨{ src := src, native := { canceled := true }, task := true, fresh := f },
    by simp [mstep, Promote], rfl, rfl, hpend,
    { src := src, native := { canceled := true }, task := false, fresh := f },
    by simp [mstep], rfl, rfl, rfl⟩

theorem promote_release_cancels_native_witness :
    zeroSignal.terminated = false ∧
    (∃ w₁, mstep (Promote zeroSignal 4) MOp.release = some w₁ ∧
      w₁.native.canceled = true ∧ w₁.src = zeroSignal ∧ w₁.src.terminated = false ∧
      ∃ w₂, mstep w₁ MOp.fireNative = some w₂ ∧ w₂.task = false ∧
        w₂.native.canceled = true ∧ w₂.src = zeroSignal) :=
  ⟨by decide, promote_release_cancels_native zeroSignal 4 (by decide)⟩

end Cancel
